import Mathlib

/-!
Verification development for the MR400 Pro requirement-tracing tool
(`matching.py`): a shallow embedding of the core scoring pipeline
(text normalization, rule matching, similarity matrices, score fusion,
top-K ranking) together with theorems checking the natural-language
specification against it.

Modelling conventions:
* Python `str` is modelled as `List Char` (`Str`); `str.lower()` is the
  ASCII lowering `Char.toLower` (Python's lowering agrees on ASCII).
* Python floats are modelled as `ℚ` where only ordering/`max` arithmetic
  occurs (scores), and as `ℝ` where square roots and logarithms occur
  (similarity matrices).  Where the program itself guards zero norms
  (sklearn's cosine maps zero vectors to similarity `0`), Mathlib's
  total division `x / 0 = 0` coincides with the program; where it does
  not (`compute_embedding_similarity`'s row normalization), IEEE
  non-finite results (NaN/±∞) are modelled explicitly as `Option.none`.
* `pandas` tables are lists of records in row order; `dict` iteration
  order is list order (Python dicts preserve insertion order).
* Library collaborators (`numpy`, `sklearn`) are embedded through their
  documented behaviour at the granularity the program uses; raising
  `ValueError` is modelled as `Except.error`.
-/

/-- Python strings as lists of characters. -/
abbrev Str := List Char

/-- The characters Python's `str.split()` / `str.strip()` treat as
whitespace (ASCII fragment). -/
def pyIsSpace (c : Char) : Bool :=
  c = ' ' || c = '\t' || c = '\n' || c = '\r' || c = '\x0b' || c = '\x0c'

/-- `str.strip()`: remove leading and trailing whitespace. -/
def pyStrip (s : Str) : Str :=
  ((s.dropWhile pyIsSpace).reverse.dropWhile pyIsSpace).reverse

/-- `str.split()` with no separator: split on whitespace runs, dropping
empty fields. -/
def pySplit (s : Str) : List Str :=
  (s.splitOnP pyIsSpace).filter (fun t => !t.isEmpty)

/-- `" ".join`: interleave a single space between fields. -/
def joinSpace : List Str → Str
  | [] => []
  | [t] => t
  | t :: ts => t ++ ' ' :: joinSpace ts

/-- `", ".join`, used for the `Matched_Groups` column. -/
def joinCommaSpace : List Str → Str
  | [] => []
  | [t] => t
  | t :: ts => t ++ ',' :: ' ' :: joinCommaSpace ts

/-- Does `pat` occur at the start of `s`?  (Helper for `str.replace`.) -/
def pyStartsWith : Str → Str → Bool
  | _, [] => true
  | [], _ :: _ => false
  | c :: s, d :: p => c == d && pyStartsWith s p

/-- Fuelled worker for `str.replace` with a non-empty pattern: replace
non-overlapping occurrences left to right.  The fuel is an upper bound
on the number of characters consumed; `pyReplace` supplies enough. -/
def pyReplaceFuel : Nat → Str → Str → Str → Str
  | 0, s, _, _ => s
  | fuel + 1, s, old, new =>
    match s with
    | [] => []
    | c :: rest =>
      if pyStartsWith (c :: rest) old then
        new ++ pyReplaceFuel fuel ((c :: rest).drop old.length) old new
      else
        c :: pyReplaceFuel fuel rest old new

/-- Python `s.replace(old, new)`: all non-overlapping occurrences, left
to right.  An empty `old` inserts `new` before every character and at
the end, as in Python. -/
def pyReplace (s old new : Str) : Str :=
  if old.isEmpty then new ++ s.flatMap (fun c => c :: new)
  else pyReplaceFuel s.length s old new

/-- `DEFAULT_STOP_PHRASES` from `matching.py`. -/
def DEFAULT_STOP_PHRASES : List Str :=
  [ "the user shall be able to".toList
  , "the user shall".toList
  , "shall be able".toList
  , "as a clinical user".toList
  , "the monitor shall".toList ]

/-- The Python values `preprocess_text` can receive: a string, `None`,
or some other object (represented here by integers) that gets passed
through `str(...)`. -/
inductive PyVal where
  | none
  | str (s : Str)
  | int (n : Int)
deriving DecidableEq

/-- Python `str(...)` on the modelled values. -/
def pyStrOf : PyVal → Str
  | .none => "None".toList
  | .str s => s
  | .int n => (toString n).toList

/-- `preprocess_text(text, stop_phrases)` from `matching.py`:
coerce non-strings (`None` to `""`, anything else via `str`), lower,
remove each stop phrase by literal replacement with a space in sequence,
then collapse whitespace via `" ".join(text.split())`. -/
def preprocess_text (text : PyVal) (stop_phrases : List Str) : Str :=
  let t : Str :=
    match text with
    | .str s => s
    | .none => []
    | v => pyStrOf v
  let lowered := t.map Char.toLower
  let replaced := stop_phrases.foldl (fun acc ph => pyReplace acc ph [' ']) lowered
  joinSpace (pySplit replaced)

/-- The method labels of the fusion engine.  In the source these are the
strings produced by `compute_fusion_score` and the placeholder row; the
spec refers to them abstractly as Fusion / Embedding / Lexical / NoMatch
(see `methodLabel` for the concrete strings). -/
inductive Method where
  | Fusion
  | Embedding
  | Lexical
  | NoMatch
deriving DecidableEq

/-- The literal label strings stored in the `Method_Used` column by
`matching.py` for each abstract method. -/
def methodLabel : Method → String
  | .Fusion => "Fusion"
  | .Embedding => "SBERT"
  | .Lexical => "TF-IDF"
  | .NoMatch => "N/A"

/-- `compute_fusion_score(rule_score, embed_score, tfidf_score)` from
`matching.py`.  Python's `max(a, b, c)` associates to the left. -/
def compute_fusion_score (rule_score : Option ℚ) (embed_score tfidf_score : ℚ) :
    ℚ × Method :=
  match rule_score with
  | some r => (max (max r embed_score) tfidf_score, Method.Fusion)
  | none =>
    if embed_score ≥ tfidf_score then (embed_score, Method.Embedding)
    else (tfidf_score, Method.Lexical)

/-- The fusion policy as worded in the spec (section 4.6), for
comparison with `compute_fusion_score`. -/
def fuseSpec (rule_score : Option ℚ) (embed_score tfidf_score : ℚ) :
    ℚ × Method :=
  match rule_score with
  | some r => (max r (max embed_score tfidf_score), Method.Fusion)
  | none =>
    if embed_score ≥ tfidf_score then (embed_score, Method.Embedding)
    else (tfidf_score, Method.Lexical)

/-- A loaded lexicon: group names to keyword lists, in insertion order
(Python dict iteration order). -/
abbrev Lexicon := List (Str × List Str)

/-- The fixed rule-hit confidence `0.85` of `compute_rule_score`, written
as the normalized rational `17/20` so that concrete evaluation reduces in
the kernel. -/
def ruleHitScore : ℚ := Rat.mk' 17 20

/-- `compute_rule_score(child_text, parent_text, lexicon)` from
`matching.py`.  Tokens are obtained with `preprocess_text` under its
default stop-phrase argument (`DEFAULT_STOP_PHRASES`), regardless of any
configuration.  Membership in the Python token `set` is list
membership. -/
def compute_rule_score (child_text parent_text : Str) (lexicon : Lexicon) :
    Option ℚ × List Str :=
  let child_tokens := pySplit (preprocess_text (.str child_text) DEFAULT_STOP_PHRASES)
  let parent_tokens := pySplit (preprocess_text (.str parent_text) DEFAULT_STOP_PHRASES)
  let matched_groups :=
    (lexicon.filter (fun gk =>
      gk.2.any (fun kw => child_tokens.contains kw) &&
      gk.2.any (fun kw => parent_tokens.contains kw))).map Prod.fst
  if matched_groups.isEmpty then (Option.none, matched_groups)
  else (Option.some ruleHitScore, matched_groups)

/-- `MatchingConfig` from `matching.py` (the embedding-provider model
name and lexicon path are carried but not consumed by the modelled
core). -/
structure MatchingConfig where
  top_k : Int
  ngram_range : Int × Int
  stop_phrases : List Str
  rules_enabled : Bool
  lexical_max_features : Option Nat
  lexical_stop_phrases : List Str
  sbert_model_name : Str
  lexicon_path : Str
deriving DecidableEq

/-- The dataclass defaults of `MatchingConfig`. -/
def defaultMatchingConfig : MatchingConfig where
  top_k := 3
  ngram_range := (1, 3)
  stop_phrases := DEFAULT_STOP_PHRASES
  rules_enabled := true
  lexical_max_features := Option.none
  lexical_stop_phrases := DEFAULT_STOP_PHRASES
  sbert_model_name := "sentence-transformers/all-MiniLM-L6-v2".toList
  lexicon_path := "domain_lexicon.json".toList

/-- Python slicing `l[:k]` for an `int` bound `k` (negative bounds count
from the end). -/
def pyTake {α : Type} (k : Int) (l : List α) : List α :=
  if 0 ≤ k then l.take k.toNat else l.take (l.length - (-k).toNat)

/-- Insert index `i` into a descending-sorted index list, after all
strictly higher-scored entries (ties keep `i`, the earlier index, in
front).  Building block of the stable descending argsort. -/
def insertDesc (score : ℕ → ℚ) (i : ℕ) : List ℕ → List ℕ
  | [] => [i]
  | j :: rest =>
    if score i < score j then j :: insertDesc score i rest
    else i :: j :: rest

/-- Stable descending argsort over an explicit index list. -/
def argsortAux (score : ℕ → ℚ) : List ℕ → List ℕ
  | [] => []
  | i :: rest => insertDesc score i (argsortAux score rest)

/-- `np.argsort(-scores)` as used by `rank_top_k`: the indices
`0, …, n-1` sorted by descending score.  NumPy's default quicksort does
not document which order equal scores come out in, so the tie order
chosen here (original index order, what NumPy's small-array
insertion-sort regime happens to produce) is a modelling choice only.
No theorem below relies on it: the properties proved about
`rankChildRows` hold for every emitted index whatever order the sort
puts ties in. -/
def argsortDesc (score : ℕ → ℚ) (n : ℕ) : List ℕ :=
  argsortAux score (List.range n)

/-- A child requirement row (`Child_ID`, `Child_Text`). -/
structure ChildRec where
  Child_ID : Str
  Child_Text : Str
deriving DecidableEq, Inhabited

/-- A parent requirement row (`Parent_ID`, `Parent_Text`). -/
structure ParentRec where
  Parent_ID : Str
  Parent_Text : Str
deriving DecidableEq, Inhabited

/-- One output row of `rank_top_k` (extra pass-through columns of the
caller are outside the modelled core). -/
structure TraceRow where
  Child_ID : Str
  Child_Text : Str
  Parent_ID : Str
  Parent_Text : Str
  Score_Rule : ℚ
  Score_Embedding : ℚ
  Score_TFIDF : ℚ
  Computed_Score : ℚ
  Method_Used : Method
  Matched_Groups : Str
deriving DecidableEq

/-- The guard `not child_row["Child_Text"] or str(...).strip() == ""`
of `rank_top_k` on a string value. -/
def isEmptyChildText (s : Str) : Bool :=
  s.isEmpty || (pyStrip s).isEmpty

/-- The placeholder row emitted for an empty child (all scores `0.0`,
empty parent fields, method label `"N/A"`). -/
def placeholderRow (child : ChildRec) : TraceRow where
  Child_ID := child.Child_ID
  Child_Text := []
  Parent_ID := []
  Parent_Text := []
  Score_Rule := 0
  Score_Embedding := 0
  Score_TFIDF := 0
  Computed_Score := 0
  Method_Used := Method.NoMatch
  Matched_Groups := []

/-- The `(rule_score, matched_groups)` pair computed per parent inside
the ranking loop: `(None, [])` unless `config.rules_enabled`. -/
def rulePairFor (cfg : MatchingConfig) (lexicon : Lexicon) (child : ChildRec)
    (parents : List ParentRec) (p : ℕ) : Option ℚ × List Str :=
  if cfg.rules_enabled then
    compute_rule_score child.Child_Text (parents.getD p default).Parent_Text lexicon
  else (Option.none, [])

/-- The fused `(score, method)` for one (child, parent) pair inside
`rank_top_k`. -/
def fusionFor (cfg : MatchingConfig) (lexicon : Lexicon) (child : ChildRec)
    (parents : List ParentRec) (embedRow tfidfRow : ℕ → ℚ) (p : ℕ) : ℚ × Method :=
  compute_fusion_score (rulePairFor cfg lexicon child parents p).1
    (embedRow p) (tfidfRow p)

/-- The fused score of each parent index for one child (the
`fusion_scores` list of the source). -/
def childScores (cfg : MatchingConfig) (lexicon : Lexicon) (child : ChildRec)
    (parents : List ParentRec) (embedRow tfidfRow : ℕ → ℚ) : ℕ → ℚ :=
  fun p => (fusionFor cfg lexicon child parents embedRow tfidfRow p).1

/-- The output row built for one selected parent index. -/
def emitRow (cfg : MatchingConfig) (lexicon : Lexicon) (child : ChildRec)
    (parents : List ParentRec) (embedRow tfidfRow : ℕ → ℚ) (p : ℕ) : TraceRow :=
  let parent := parents.getD p default
  { Child_ID := child.Child_ID
    Child_Text := child.Child_Text
    Parent_ID := parent.Parent_ID
    Parent_Text := parent.Parent_Text
    Score_Rule := ((rulePairFor cfg lexicon child parents p).1).getD 0
    Score_Embedding := embedRow p
    Score_TFIDF := tfidfRow p
    Computed_Score := (fusionFor cfg lexicon child parents embedRow tfidfRow p).1
    Method_Used := (fusionFor cfg lexicon child parents embedRow tfidfRow p).2
    Matched_Groups := joinCommaSpace (rulePairFor cfg lexicon child parents p).2 }

/-- The rows `rank_top_k` emits for one child: a single placeholder when
the raw text is empty or whitespace-only, otherwise one row per parent
index in `np.argsort(-fusion_scores)[: config.top_k]`. -/
def rankChildRows (cfg : MatchingConfig) (lexicon : Lexicon)
    (parents : List ParentRec) (embedRow tfidfRow : ℕ → ℚ) (child : ChildRec) :
    List TraceRow :=
  if isEmptyChildText child.Child_Text then [placeholderRow child]
  else
    (pyTake cfg.top_k
      (argsortDesc (childScores cfg lexicon child parents embedRow tfidfRow)
        parents.length)).map
      (emitRow cfg lexicon child parents embedRow tfidfRow)

/-- `rank_top_k(children_df, parents_df, config, …)` from `matching.py`,
parameterised by the embedding- and TF-IDF-similarity matrices (indexed
child × parent) that the source computes from its external collaborators
before the loop, and by the loaded lexicon.  Children are processed in
original order and each contributes its `rankChildRows`. -/
def rank_top_k (children : List ChildRec) (parents : List ParentRec)
    (cfg : MatchingConfig) (embedM tfidfM : ℕ → ℕ → ℚ) (lexicon : Lexicon) :
    List TraceRow :=
  (children.enum).flatMap
    (fun ic => rankChildRows cfg lexicon parents (embedM ic.1) (tfidfM ic.1) ic.2)

/-! ## TF-IDF similarity (`compute_tfidf_similarity`)

`matching.py` delegates to sklearn's `TfidfVectorizer` (defaults plus
`ngram_range`, `stop_words="english"`, `max_features`) followed by
`cosine_similarity`.  The vectorizer is embedded through its documented
behaviour: lowercasing, word tokens of at least two alphanumeric
characters, removal of its built-in English stop words, n-grams joined
by spaces, smooth idf `log((1+n)/(1+df)) + 1`, l2 row normalization
(zero rows left as zeros), and a `ValueError` when `ngram_range` is
decreasing or when the vocabulary comes out empty.  Errors are modelled
as `Except.error`. -/

/-- A character matched by `\w` in sklearn's token pattern
`(?u)\b\w\w+\b` (ASCII fragment). -/
def sklearnWordChar (c : Char) : Bool := c.isAlphanum || c = '_'

/-- sklearn tokenization: lowercase, then keep maximal word-character
runs of length at least two. -/
def sklearnTokenize (s : Str) : List Str :=
  ((s.map Char.toLower).splitOnP (fun c => !sklearnWordChar c)).filter
    (fun t => decide (2 ≤ t.length))

/-- sklearn's frozen built-in English stop-word list
(`stop_words="english"`), abbreviated to a representative fragment: no
theorem in this development depends on its exact contents, only on the
tokens-to-ngrams pipeline around it. -/
def sklearnEnglishStopWords : List Str :=
  [ "a".toList, "an".toList, "and".toList, "are".toList, "as".toList
  , "at".toList, "be".toList, "by".toList, "for".toList, "from".toList
  , "has".toList, "he".toList, "in".toList, "is".toList, "it".toList
  , "its".toList, "of".toList, "on".toList, "that".toList, "the".toList
  , "to".toList, "was".toList, "were".toList, "will".toList, "with".toList ]

/-- All length-`n` windows of a token list. -/
def tokenWindows (n : ℕ) (tokens : List Str) : List (List Str) :=
  (List.range (tokens.length + 1 - n)).map (fun i => (tokens.drop i).take n)

/-- The n-grams (joined by single spaces) of a token list for the
inclusive range `nmin..nmax`. -/
def ngramsOf (tokens : List Str) (nmin nmax : ℕ) : List Str :=
  ((List.range (nmax + 1 - nmin)).map (fun k => nmin + k)).flatMap
    (fun n => (tokenWindows n tokens).map joinSpace)

/-- The n-gram features sklearn extracts from one document under the
given configuration (tokenize, drop stop words, build n-grams). -/
def docNgrams (cfg : MatchingConfig) (s : Str) : List Str :=
  ngramsOf ((sklearnTokenize s).filter
      (fun t => !sklearnEnglishStopWords.contains t))
    cfg.ngram_range.1.toNat cfg.ngram_range.2.toNat

/-- Number of documents of the corpus containing a feature. -/
def docFreq (cfg : MatchingConfig) (corpus : List Str) (t : Str) : ℕ :=
  (corpus.filter (fun d => (docNgrams cfg d).contains t)).length

/-- The fitted vocabulary: every feature of the corpus (deduplicated,
first occurrence order — column order is irrelevant to the cosine
values), optionally limited to the `max_features` most document-frequent
features as sklearn does. -/
def tfidfVocabulary (cfg : MatchingConfig) (corpus : List Str) : List Str :=
  let vocab := (corpus.flatMap (docNgrams cfg)).dedup
  match cfg.lexical_max_features with
  | Option.none => vocab
  | Option.some k =>
    (pyTake (Int.ofNat k)
      (argsortDesc (fun i => ((docFreq cfg corpus (vocab.getD i [])) : ℚ))
        vocab.length)).map (fun i => vocab.getD i [])

/-- Number of occurrences of a feature in a document (raw term
frequency). -/
def termCount (cfg : MatchingConfig) (d : Str) (t : Str) : ℕ :=
  ((docNgrams cfg d).filter (fun u => u = t)).length

/-- The (un-normalized) tf-idf row of one document over the vocabulary,
with smooth idf `log((1+n)/(1+df)) + 1`. -/
noncomputable def tfidfRawRow (cfg : MatchingConfig) (corpus : List Str)
    (vocab : List Str) (d : Str) : List ℝ :=
  vocab.map (fun t =>
    (termCount cfg d t : ℝ) *
      (Real.log ((1 + (corpus.length : ℝ)) / (1 + (docFreq cfg corpus t : ℝ))) + 1))

/-- l2 norm of a real vector given as a list. -/
noncomputable def listNorm (v : List ℝ) : ℝ :=
  Real.sqrt ((v.map (fun x => x ^ 2)).sum)

/-- Cosine similarity of two list vectors, with sklearn's convention
that zero vectors yield similarity `0` (matching Mathlib's `x / 0 = 0`). -/
noncomputable def cosineR (u v : List ℝ) : ℝ :=
  ((u.zipWith (· * ·) v).sum) / (listNorm u * listNorm v)

/-- `compute_tfidf_similarity(child_texts, parent_texts, config)` from
`matching.py`: one joint TF-IDF space over children followed by parents,
split back and compared by cosine.  The two `ValueError`s sklearn can
raise on this input surface as `Except.error`; `matching.py` installs no
handler for either, so they propagate to the caller. -/
noncomputable def compute_tfidf_similarity (child_texts parent_texts : List Str)
    (cfg : MatchingConfig) : Except String (List (List ℝ)) :=
  if cfg.ngram_range.2 < cfg.ngram_range.1 then
    Except.error "Invalid value for ngram_range lower boundary larger than the upper boundary"
  else
    let corpus := child_texts ++ parent_texts
    let vocab := tfidfVocabulary cfg corpus
    if vocab.isEmpty then
      Except.error "empty vocabulary; perhaps the documents only contain stop words"
    else
      let rows := corpus.map (tfidfRawRow cfg corpus vocab)
      let child_rows := rows.take child_texts.length
      let parent_rows := rows.drop child_texts.length
      Except.ok (child_rows.map (fun u => parent_rows.map (fun v => cosineR u v)))

/-! ## Embedding similarity (`compute_embedding_similarity`)

`matching.py` row-normalizes both arrays with `np.linalg.norm` and
multiplies.  Arrays are embedded as `Matrix (Fin _) (Fin _) ℝ`;
`size == 0` is `rows * cols = 0`.  NumPy divides under IEEE-754: a
zero-norm row produces non-finite entries (`0/0` is NaN) rather than an
error, so result entries are `Option ℝ`, with `Option.none` standing
for a non-finite float (NaN or an infinity). -/

/-- l2 norm of one row of a matrix. -/
noncomputable def rowNorm {d : ℕ} (v : Fin d → ℝ) : ℝ :=
  Real.sqrt (∑ k, v k ^ 2)

/-- IEEE division of finite floats: finite unless the denominator is
zero (`x/0` is an infinity for `x ≠ 0` and NaN for `x = 0`, both
non-finite). -/
noncomputable def fdiv (x y : ℝ) : Option ℝ :=
  if y = 0 then Option.none else Option.some (x / y)

/-- IEEE product: finite times finite is finite (overflow to infinity
is outside this embedding's scope, as everywhere floats are modelled by
reals); a non-finite operand makes the result non-finite (NaN times
anything is NaN; an infinity times anything is an infinity or NaN). -/
def fmul : Option ℝ → Option ℝ → Option ℝ
  | Option.some a, Option.some b => Option.some (a * b)
  | _, _ => Option.none

/-- IEEE addition: finite plus finite is finite; a non-finite operand
makes the result non-finite (NaN plus anything is NaN; an infinity plus
anything is an infinity or NaN). -/
def fadd : Option ℝ → Option ℝ → Option ℝ
  | Option.some a, Option.some b => Option.some (a + b)
  | _, _ => Option.none

/-- Sum of a list of IEEE values (the dot-product accumulation of the
matrix product). -/
def fsum (l : List (Option ℝ)) : Option ℝ := l.foldr fadd (Option.some 0)

/-- A similarity entry "lies in `[-1, 1]`" when it is a finite value in
that interval; a non-finite (NaN/infinite) entry does not. -/
def inClosedUnitBall (v : Option ℝ) : Prop :=
  ∃ x, v = Option.some x ∧ -1 ≤ x ∧ x ≤ 1

/-- `compute_embedding_similarity(child_embeddings, parent_embeddings)`
from `matching.py`: zero matrix of shape children × parents when either
array has size zero, otherwise the product of the row-normalized arrays
— entry `(i, j)` accumulates, under IEEE arithmetic, the products of
child row `i` and parent row `j` each divided by its row norm.  A
zero-norm row makes all its entries NaN (`Option.none`). -/
noncomputable def compute_embedding_similarity {m d n : ℕ}
    (child_embeddings : Matrix (Fin m) (Fin d) ℝ)
    (parent_embeddings : Matrix (Fin n) (Fin d) ℝ) :
    Matrix (Fin m) (Fin n) (Option ℝ) :=
  if m * d = 0 ∨ n * d = 0 then Matrix.of fun _ _ => Option.some 0
  else
    Matrix.of fun i j =>
      fsum (List.ofFn fun k =>
        fmul (fdiv (child_embeddings i k) (rowNorm (child_embeddings i)))
          (fdiv (parent_embeddings j k) (rowNorm (parent_embeddings j))))

/-! ## Remaining definitions: concrete fixtures -/

/-- Fixture: three parents used to instantiate hypothesis-bearing
theorems at concrete inputs. -/
def wParents : List ParentRec :=
  [ ⟨"P1".toList, "alpha monitor".toList⟩
  , ⟨"P2".toList, "beta display".toList⟩
  , ⟨"P3".toList, "gamma sensor".toList⟩ ]

/-- Fixture: a child with non-empty text. -/
def wChild : ChildRec := ⟨"C1".toList, "view ecg waveform".toList⟩

/-- Fixture: a child whose raw text is whitespace-only. -/
def wEmptyChild : ChildRec := ⟨"C9".toList, "   ".toList⟩

/-- Fixture: an embedding-similarity row (per parent index). -/
def wE : ℕ → ℚ := fun p => [(90 : ℚ), 40, 40].getD p 0

/-- Fixture: a TF-IDF-similarity row (per parent index); ties with `wE`
at parent 1. -/
def wT : ℕ → ℚ := fun p => [(20 : ℚ), 40, 70].getD p 0

/-- Fixture: the default configuration with rules disabled. -/
def cfgNoRules : MatchingConfig := { defaultMatchingConfig with rules_enabled := false }

/-- Fixture: a 1 × 1 embedding array whose single row is zero (its norm
is zero, so normalizing divides `0/0`). -/
def matZeroRow : Matrix (Fin 1) (Fin 1) ℝ := Matrix.of fun _ _ => 0

/-- Fixture: a 1 × 1 embedding array with entry 1. -/
def matOneRow : Matrix (Fin 1) (Fin 1) ℝ := Matrix.of fun _ _ => 1

/-- Fixture: a 1 × 1 embedding array with entry 2. -/
def embA : Matrix (Fin 1) (Fin 1) ℝ := Matrix.of fun _ _ => 2

/-- Fixture: a 1 × 1 embedding array with entry 3. -/
def embB : Matrix (Fin 1) (Fin 1) ℝ := Matrix.of fun _ _ => 3

/-- Fixture: an empty (0 × 1) embedding array. -/
def embEmpty : Matrix (Fin 0) (Fin 1) ℝ := Matrix.of fun _ _ => 0

/-- Fixture: a 2 × 1 embedding array with entries 5. -/
def embP2 : Matrix (Fin 2) (Fin 1) ℝ := Matrix.of fun _ _ => 5

/-! ## Helper lemmas -/

theorem fsum_map_some (l : List ℝ) :
    fsum (l.map Option.some) = Option.some l.sum := by
  induction l with
  | nil => rfl
  | cons a t ih =>
    have ih2 : (t.map Option.some).foldr fadd (Option.some 0) = Option.some t.sum := ih
    simp only [List.map_cons, fsum, List.foldr_cons, List.sum_cons, ih2]
    rfl

/-! ## Helper lemmas: normalization strings -/

theorem toNat_ofNat_small (n : ℕ) (h : n < 55296) : (Char.ofNat n).toNat = n := by
  rw [Char.ofNat, dif_pos (Or.inl h)]
  rfl

theorem toLower_idem (c : Char) : Char.toLower (Char.toLower c) = Char.toLower c := by
  simp only [Char.toLower]
  by_cases h : c.toNat ≥ 65 ∧ c.toNat ≤ 90
  · rw [if_pos h]
    have hv : c.toNat + 32 < 55296 := by omega
    rw [if_neg]
    rw [toNat_ofNat_small _ hv]
    omega
  · rw [if_neg h, if_neg h]

theorem map_id_of_fixed {α : Type} (f : α → α) :
    ∀ l : List α, (∀ a ∈ l, f a = a) → l.map f = l := by
  intro l
  induction l with
  | nil => intro _; rfl
  | cons a rest ih =>
    intro h
    rw [List.map_cons, h a (List.mem_cons_self _ _), ih (fun b hb => h b (List.mem_cons_of_mem _ hb))]

theorem splitOnP_chunk_chars (p : Char → Bool) :
    ∀ s : Str, ∀ t ∈ s.splitOnP p, ∀ c ∈ t, c ∈ s ∧ p c = false := by
  intro s
  induction s with
  | nil =>
    intro t ht c hc
    rw [List.splitOnP_nil] at ht
    rcases List.mem_singleton.1 ht with rfl
    exact absurd hc (List.not_mem_nil c)
  | cons a s ih =>
    intro t ht c hc
    rw [List.splitOnP_cons] at ht
    by_cases hpa : p a
    · rw [if_pos hpa] at ht
      rcases List.mem_cons.1 ht with rfl | ht2
      · exact absurd hc (List.not_mem_nil c)
      · have := ih t ht2 c hc
        exact ⟨List.mem_cons_of_mem _ this.1, this.2⟩
    · rw [if_neg hpa] at ht
      cases hs : s.splitOnP p with
      | nil => exact absurd hs (List.splitOnP_ne_nil p s)
      | cons hd tl =>
        rw [hs] at ht
        rcases List.mem_cons.1 ht with rfl | ht2
        · rcases List.mem_cons.1 hc with rfl | hc2
          · exact ⟨List.mem_cons_self _ _, Bool.eq_false_iff.2 hpa⟩
          · have hhd : hd ∈ s.splitOnP p := by rw [hs]; exact List.mem_cons_self _ _
            have := ih hd hhd c hc2
            exact ⟨List.mem_cons_of_mem _ this.1, this.2⟩
        · have htl : t ∈ s.splitOnP p := by rw [hs]; exact List.mem_cons_of_mem _ ht2
          have := ih t htl c hc
          exact ⟨List.mem_cons_of_mem _ this.1, this.2⟩

theorem pySplit_tokens (s : Str) :
    ∀ t ∈ pySplit s, t ≠ [] ∧ ∀ c ∈ t, pyIsSpace c = false ∧ c ∈ s := by
  intro t ht
  have hmem := List.mem_filter.1 ht
  constructor
  · intro he
    rw [he] at hmem
    simp at hmem
  · intro c hc
    have := splitOnP_chunk_chars pyIsSpace s t hmem.1 c hc
    exact ⟨this.2, this.1⟩

theorem pySplit_joinSpace :
    ∀ ts : List Str, (∀ t ∈ ts, t ≠ [] ∧ ∀ c ∈ t, pyIsSpace c = false) →
      pySplit (joinSpace ts) = ts := by
  intro ts
  induction ts with
  | nil => intro _; rfl
  | cons t ts2 ih =>
    intro h
    have ht := h t (List.mem_cons_self _ _)
    have htne : t.isEmpty = false := by
      cases t with
      | nil => exact absurd rfl ht.1
      | cons c cs => rfl
    cases ts2 with
    | nil =>
      show pySplit t = [t]
      unfold pySplit
      rw [List.splitOnP_eq_single]
      · simp [List.filter, htne]
      · intro x hx
        simp [ht.2 x hx]
    | cons t2 ts3 =>
      show pySplit (t ++ ' ' :: joinSpace (t2 :: ts3)) = t :: t2 :: ts3
      unfold pySplit
      rw [List.splitOnP_first]
      · rw [List.filter_cons]
        simp only [htne, Bool.not_false, if_pos]
        have := ih (fun u hu => h u (List.mem_cons_of_mem _ hu))
        unfold pySplit at this
        rw [this]
      · intro x hx
        simp [ht.2 x hx]
      · rfl

theorem map_joinSpace (f : Char → Char) (hf : f ' ' = ' ') :
    ∀ ts : List Str, (joinSpace ts).map f = joinSpace (ts.map (fun t => t.map f)) := by
  intro ts
  induction ts with
  | nil => rfl
  | cons t ts2 ih =>
    cases ts2 with
    | nil => rfl
    | cons t2 ts3 =>
      show (t ++ ' ' :: joinSpace (t2 :: ts3)).map f
          = t.map f ++ ' ' :: joinSpace ((t2 :: ts3).map (fun t => t.map f))
      rw [List.map_append, List.map_cons, hf, ih]

/-! ## Claim theorems -/

/-- C1: `compute_fusion_score` implements exactly the spec fusion
policy: with a rule score present the result is the three-way maximum
with method Fusion; otherwise the larger of embedding and TF-IDF wins
with method Embedding resp. Lexical, and an exact tie goes to Embedding
via the `>=` comparison. -/
theorem fusion_policy_matches_spec (r : Option ℚ) (e t : ℚ) :
    compute_fusion_score r e t = fuseSpec r e t ∧
    (compute_fusion_score Option.none t t).2 = Method.Embedding := by
  constructor
  · cases r with
    | none => rfl
    | some v => simp [compute_fusion_score, fuseSpec, max_assoc]
  · simp [compute_fusion_score]

/-- C3: on a corpus whose texts are all empty after normalization,
`compute_tfidf_similarity` does not return a zero matrix — the fitted
vocabulary is empty and sklearn's `ValueError` ("empty vocabulary")
propagates, since `matching.py` installs no handler.  Evaluated here at
two empty children and three empty parents under the default
configuration. -/
theorem tfidf_empty_corpus_raises_value_error :
    compute_tfidf_similarity [[], []] [[], [], []] defaultMatchingConfig
      = Except.error "empty vocabulary; perhaps the documents only contain stop words" := rfl

/-- C4: a child whose raw text is empty or whitespace-only contributes
exactly one placeholder row (empty parent fields, all four scores `0.0`,
method NoMatch — label string `"N/A"`), and no fusion or top-K selection
happens for it. -/
theorem empty_child_single_placeholder (cfg : MatchingConfig) (lexicon : Lexicon)
    (parents : List ParentRec) (embedRow tfidfRow : ℕ → ℚ) (child : ChildRec)
    (he : isEmptyChildText child.Child_Text = true) :
    rankChildRows cfg lexicon parents embedRow tfidfRow child = [placeholderRow child] := by
  simp [rankChildRows, he]

/-- Witness for C4 at a whitespace-only child. -/
theorem empty_child_single_placeholder_witness :
    rankChildRows defaultMatchingConfig [] wParents wE wT wEmptyChild
      = [placeholderRow wEmptyChild] :=
  empty_child_single_placeholder defaultMatchingConfig [] wParents wE wT wEmptyChild (by decide)

/-- C5: no `ConfigError` exists and `MatchingConfig` is never validated:
with the invalid `top_k = 0` the ranking loop still produces a result
table (here a placeholder row, and zero match rows for the non-empty
child), and a decreasing `ngram_range` surfaces only as sklearn's
`ValueError` inside the TF-IDF computation — which in `rank_top_k` runs
after the embedding calls, not before scoring starts. -/
theorem invalid_config_unvalidated_table_produced :
    rank_top_k [⟨"C1".toList, "ecg monitor".toList⟩, ⟨"C2".toList, []⟩]
      [⟨"P1".toList, "monitor".toList⟩]
      { defaultMatchingConfig with top_k := 0 }
      (fun _ _ => 0) (fun _ _ => 0) []
      = [placeholderRow ⟨"C2".toList, []⟩] ∧
    compute_tfidf_similarity ["ab".toList] ["cd".toList]
      { defaultMatchingConfig with ngram_range := (3, 1) }
      = Except.error "Invalid value for ngram_range lower boundary larger than the upper boundary" :=
  ⟨by decide, rfl⟩

/-- C6 counterexample: `preprocess_text` is not idempotent and its
result can contain a configured stop phrase.  With the default stop
phrases and input `"the  user shall"` (double space), no phrase matches,
whitespace collapsing then yields exactly the stop phrase
`"the user shall"`, and a second application removes it. -/
theorem preprocess_counterexample_not_idempotent :
    preprocess_text
        (.str (preprocess_text (.str "the  user shall".toList) DEFAULT_STOP_PHRASES))
        DEFAULT_STOP_PHRASES
      ≠ preprocess_text (.str "the  user shall".toList) DEFAULT_STOP_PHRASES ∧
    preprocess_text (.str "the  user shall".toList) DEFAULT_STOP_PHRASES
      ∈ DEFAULT_STOP_PHRASES := by
  decide

/-- C6 amended: with an empty stop-phrase list — where no phrase removal
can interact with whitespace collapsing — `preprocess_text` is
idempotent. -/
theorem preprocess_idempotent_empty_stop_phrases (s : Str) :
    preprocess_text (.str (preprocess_text (.str s) [])) [] = preprocess_text (.str s) [] := by
  show joinSpace (pySplit ((joinSpace (pySplit (s.map Char.toLower))).map Char.toLower))
      = joinSpace (pySplit (s.map Char.toLower))
  have htok := pySplit_tokens (s.map Char.toLower)
  have h1 : (joinSpace (pySplit (s.map Char.toLower))).map Char.toLower
      = joinSpace (pySplit (s.map Char.toLower)) := by
    rw [map_joinSpace Char.toLower (by decide)]
    congr 1
    apply map_id_of_fixed
    intro t ht
    apply map_id_of_fixed
    intro c hc
    obtain ⟨c0, _, rfl⟩ := List.mem_map.1 ((htok t ht).2 c hc).2
    exact toLower_idem c0
  rw [h1, pySplit_joinSpace _
    (fun t ht => ⟨(htok t ht).1, fun c hc => ((htok t ht).2 c hc).1⟩)]

/-- C7 counterexample: `preprocess_text` does not coerce every
non-string input to the empty string — a non-`None` value goes through
`str(...)`: the integer `42` yields `"42"`, not `""`. -/
theorem preprocess_nonstring_counterexample :
    preprocess_text (.int 42) DEFAULT_STOP_PHRASES = "42".toList ∧
    preprocess_text (.str []) DEFAULT_STOP_PHRASES = [] ∧
    ("42".toList : Str) ≠ [] := by decide

/-- C7 amended: `preprocess_text` never raises on the modelled inputs
(it is total); `None` is coerced to the empty string, while any other
non-string value is coerced to its `str(...)` rendering before
processing. -/
theorem preprocess_nonstring_coercion (stop_phrases : List Str) (n : Int) :
    preprocess_text .none stop_phrases = preprocess_text (.str []) stop_phrases ∧
    preprocess_text (.int n) stop_phrases
      = preprocess_text (.str (pyStrOf (.int n))) stop_phrases :=
  ⟨rfl, rfl⟩

/-- C9: the rule scores — and with them the whole ranking output and
the TF-IDF matrix — are independent of `config.stop_phrases`: the field
is read nowhere; `compute_rule_score` normalizes with the built-in
`DEFAULT_STOP_PHRASES` (see its definition) and takes no configuration
at all. -/
theorem rank_independent_of_config_stop_phrases
    (children : List ChildRec) (parents : List ParentRec) (cfg : MatchingConfig)
    (sp : List Str) (embedM tfidfM : ℕ → ℕ → ℚ) (lexicon : Lexicon)
    (child_texts parent_texts : List Str) :
    rank_top_k children parents { cfg with stop_phrases := sp } embedM tfidfM lexicon
      = rank_top_k children parents cfg embedM tfidfM lexicon ∧
    compute_tfidf_similarity child_texts parent_texts { cfg with stop_phrases := sp }
      = compute_tfidf_similarity child_texts parent_texts cfg := by
  cases cfg
  exact ⟨rfl, rfl⟩

/-- C10: with `rules_enabled = false`, every row of a non-empty child
carries `Score_Rule = 0.0`, a method that is never Fusion, the fused
score `max(embedding, tfidf)`, and the embedding-wins tie rule. -/
theorem rules_disabled_row_properties (cfg : MatchingConfig) (lexicon : Lexicon)
    (parents : List ParentRec) (embedRow tfidfRow : ℕ → ℚ) (child : ChildRec)
    (row : TraceRow)
    (hr : cfg.rules_enabled = false)
    (hne : isEmptyChildText child.Child_Text = false)
    (hmem : row ∈ rankChildRows cfg lexicon parents embedRow tfidfRow child) :
    row.Score_Rule = 0 ∧
    row.Method_Used ≠ Method.Fusion ∧
    row.Computed_Score = max row.Score_Embedding row.Score_TFIDF ∧
    row.Method_Used
      = (if row.Score_TFIDF ≤ row.Score_Embedding then Method.Embedding
         else Method.Lexical) := by
  have hrw : rankChildRows cfg lexicon parents embedRow tfidfRow child
      = (pyTake cfg.top_k
          (argsortDesc (childScores cfg lexicon child parents embedRow tfidfRow)
            parents.length)).map
        (emitRow cfg lexicon child parents embedRow tfidfRow) := by
    simp [rankChildRows, hne]
  rw [hrw] at hmem
  obtain ⟨p, _, rfl⟩ := List.mem_map.1 hmem
  have hrp : rulePairFor cfg lexicon child parents p = (Option.none, []) := by
    simp [rulePairFor, hr]
  have hfus : fusionFor cfg lexicon child parents embedRow tfidfRow p
      = compute_fusion_score Option.none (embedRow p) (tfidfRow p) := by
    unfold fusionFor
    rw [hrp]
  have hSR : (emitRow cfg lexicon child parents embedRow tfidfRow p).Score_Rule = 0 := by
    simp [emitRow, hrp]
  have hSE : (emitRow cfg lexicon child parents embedRow tfidfRow p).Score_Embedding
      = embedRow p := rfl
  have hST : (emitRow cfg lexicon child parents embedRow tfidfRow p).Score_TFIDF
      = tfidfRow p := rfl
  have hCS : (emitRow cfg lexicon child parents embedRow tfidfRow p).Computed_Score
      = (compute_fusion_score Option.none (embedRow p) (tfidfRow p)).1 := by
    simp [emitRow, hfus]
  have hMU : (emitRow cfg lexicon child parents embedRow tfidfRow p).Method_Used
      = (compute_fusion_score Option.none (embedRow p) (tfidfRow p)).2 := by
    simp [emitRow, hfus]
  by_cases hc : tfidfRow p ≤ embedRow p
  · refine ⟨hSR, ?_, ?_, ?_⟩
    · rw [hMU]
      simp [compute_fusion_score, ge_iff_le, hc]
    · rw [hCS, hSE, hST]
      simp [compute_fusion_score, ge_iff_le, hc, max_eq_left hc]
    · rw [hMU, hSE, hST]
      simp [compute_fusion_score, ge_iff_le, hc]
  · refine ⟨hSR, ?_, ?_, ?_⟩
    · rw [hMU]
      simp [compute_fusion_score, ge_iff_le, hc]
    · rw [hCS, hSE, hST]
      simp [compute_fusion_score, ge_iff_le, hc, max_eq_right (le_of_lt (not_le.1 hc))]
    · rw [hMU, hSE, hST]
      simp [compute_fusion_score, ge_iff_le, hc]

/-- Witness for C10: the tie row (parent index 1, embedding = tfidf) of
the rules-disabled fixture. -/
theorem rules_disabled_row_properties_witness :
    (emitRow cfgNoRules [] wChild wParents wE wT 1).Score_Rule = 0 ∧
    (emitRow cfgNoRules [] wChild wParents wE wT 1).Method_Used ≠ Method.Fusion ∧
    (emitRow cfgNoRules [] wChild wParents wE wT 1).Computed_Score
      = max (emitRow cfgNoRules [] wChild wParents wE wT 1).Score_Embedding
          (emitRow cfgNoRules [] wChild wParents wE wT 1).Score_TFIDF ∧
    (emitRow cfgNoRules [] wChild wParents wE wT 1).Method_Used
      = (if (emitRow cfgNoRules [] wChild wParents wE wT 1).Score_TFIDF
            ≤ (emitRow cfgNoRules [] wChild wParents wE wT 1).Score_Embedding
         then Method.Embedding else Method.Lexical) :=
  rules_disabled_row_properties cfgNoRules [] wParents wE wT wChild
    (emitRow cfgNoRules [] wChild wParents wE wT 1) (by decide) (by decide) (by decide)

/-- C8 counterexample: a zero embedding row falsifies the universal
`[-1, 1]` bound.  With a 1 × 1 child array holding the zero vector, its
row norm is `0`, NumPy's IEEE division computes `0/0 = NaN`, and the
resulting entry is non-finite — not in `[-1, 1]`. -/
theorem embedding_similarity_nan_counterexample :
    compute_embedding_similarity matZeroRow matOneRow 0 0 = Option.none ∧
    ¬ inClosedUnitBall (compute_embedding_similarity matZeroRow matOneRow 0 0) := by
  have h : compute_embedding_similarity matZeroRow matOneRow 0 0 = Option.none := by
    rw [compute_embedding_similarity, if_neg (by norm_num), Matrix.of_apply]
    have hnorm : rowNorm (matZeroRow 0) = 0 := by
      simp [rowNorm, matZeroRow]
    simp [List.ofFn_succ, fsum, fadd, fmul, fdiv, hnorm]
  refine ⟨h, ?_⟩
  rw [h]
  simp [inClosedUnitBall]

/-- C8 amended: `compute_embedding_similarity` returns the zero matrix
of shape children × parents when either input has size zero, and every
entry is a finite value in `[-1, 1]` (Cauchy–Schwarz) provided the two
rows being compared are nonzero; a zero row instead yields NaN entries
(see the counterexample). -/
theorem embedding_similarity_zero_on_empty_and_bounded_on_nonzero_rows
    {m d n : ℕ} (C : Matrix (Fin m) (Fin d) ℝ) (P : Matrix (Fin n) (Fin d) ℝ) :
    (m * d = 0 ∨ n * d = 0 →
      compute_embedding_similarity C P = Matrix.of fun _ _ => Option.some 0) ∧
    (∀ i j, (∑ k, C i k ^ 2) ≠ 0 → (∑ k, P j k ^ 2) ≠ 0 →
      inClosedUnitBall (compute_embedding_similarity C P i j)) := by
  constructor
  · intro h
    rw [compute_embedding_similarity, if_pos h]
  · intro i j hCi hPj
    by_cases hc : m * d = 0 ∨ n * d = 0
    · rw [compute_embedding_similarity, if_pos hc, Matrix.of_apply]
      exact ⟨0, rfl, by norm_num, by norm_num⟩
    · rw [compute_embedding_similarity, if_neg hc, Matrix.of_apply]
      have hApos : 0 < ∑ k, C i k ^ 2 :=
        lt_of_le_of_ne (Finset.sum_nonneg fun _ _ => sq_nonneg _) (Ne.symm hCi)
      have hBpos : 0 < ∑ k, P j k ^ 2 :=
        lt_of_le_of_ne (Finset.sum_nonneg fun _ _ => sq_nonneg _) (Ne.symm hPj)
      have hapos : 0 < rowNorm (C i) := by
        simp only [rowNorm]
        exact Real.sqrt_pos.2 hApos
      have hbpos : 0 < rowNorm (P j) := by
        simp only [rowNorm]
        exact Real.sqrt_pos.2 hBpos
      have hentry : (List.ofFn fun k =>
          fmul (fdiv (C i k) (rowNorm (C i))) (fdiv (P j k) (rowNorm (P j))))
          = (List.ofFn fun k =>
              C i k / rowNorm (C i) * (P j k / rowNorm (P j))).map Option.some := by
        rw [List.map_ofFn]
        congr 1
        funext k
        simp [fdiv, fmul, ne_of_gt hapos, ne_of_gt hbpos, Function.comp]
      rw [hentry, fsum_map_some, List.sum_ofFn]
      have hsum : (∑ k, C i k / rowNorm (C i) * (P j k / rowNorm (P j)))
          = (∑ k, C i k * P j k) / (rowNorm (C i) * rowNorm (P j)) := by
        rw [Finset.sum_div]
        refine Finset.sum_congr rfl ?_
        intro k _
        rw [div_mul_div_comm]
      have habpos : 0 < rowNorm (C i) * rowNorm (P j) := mul_pos hapos hbpos
      have hup : (∑ k, C i k * P j k) ≤ rowNorm (C i) * rowNorm (P j) := by
        simp only [rowNorm]
        exact Real.sum_mul_le_sqrt_mul_sqrt Finset.univ (fun k => C i k) (fun k => P j k)
      have hlow : -(rowNorm (C i) * rowNorm (P j)) ≤ ∑ k, C i k * P j k := by
        have h2 := Real.sum_mul_le_sqrt_mul_sqrt Finset.univ
          (fun k => -C i k) (fun k => P j k)
        simp only [neg_mul, Finset.sum_neg_distrib, neg_sq] at h2
        simp only [rowNorm]
        linarith
      refine ⟨(∑ k, C i k * P j k) / (rowNorm (C i) * rowNorm (P j)), by rw [hsum], ?_, ?_⟩
      · rw [le_div_iff₀ habpos]
        linarith
      · rw [div_le_one habpos]
        exact hup

/-- Witness for C8 (amended): the zero-size clause at an empty (0 × 1)
child array, and the bound clause at concrete nonzero 1 × 1 arrays. -/
theorem embedding_similarity_zero_on_empty_and_bounded_on_nonzero_rows_witness :
    compute_embedding_similarity embEmpty embP2 = (Matrix.of fun _ _ => Option.some 0) ∧
    inClosedUnitBall (compute_embedding_similarity embA embB 0 0) :=
  ⟨(embedding_similarity_zero_on_empty_and_bounded_on_nonzero_rows embEmpty embP2).1
      (Or.inl rfl),
   (embedding_similarity_zero_on_empty_and_bounded_on_nonzero_rows embA embB).2 0 0
      (by norm_num [embA]) (by norm_num [embB])⟩
